import Mathlib

/-!
Verification of the astroeph-api angular core: angle normalization, shortest
angular distance, arc midpoints, aspect matching, house assignment, the
composite midpoint calculator, and the anti-overlap symbol placement
algorithm.  Go float64 values are modelled as exact rationals; Go slices as
Lean lists.  Loops that run until a condition fails are modelled with a fuel
argument that is either chosen to be the exact number of iterations the Go
loop performs (normalization, proved by the range lemmas below) or surfaced
in an Option result (the relaxation passes, where the Go loop need not
terminate at all).
-/

namespace Astroeph

/-- One iteration step of the Go loop `for angle < 0 { angle += 360 }`,
with explicit fuel. -/
def normUpGo : Nat → ℚ → ℚ
  | 0, x => x
  | n + 1, x => if x < 0 then normUpGo n (x + 360) else x

/-- The Go loop `for angle < 0 { angle += 360 }`: the fuel is the exact
number of iterations the loop performs. -/
def normUp (x : ℚ) : ℚ := normUpGo (Int.toNat ⌈-x / 360⌉) x

/-- One iteration step of the Go loop `for angle >= 360 { angle -= 360 }`,
with explicit fuel. -/
def normDownGo : Nat → ℚ → ℚ
  | 0, x => x
  | n + 1, x => if 360 ≤ x then normDownGo n (x - 360) else x

/-- The Go loop `for angle >= 360 { angle -= 360 }`: the fuel is the exact
number of iterations the loop performs. -/
def normDown (x : ℚ) : ℚ := normDownGo (Int.toNat ⌊x / 360⌋) x

/-- Go `normalizeAngle` / `normalizeAngle360` (identical copies live in
`internal/domain/house.go`, `internal/astro/houses.go`,
`pkg/chart/raw_chart_data.go`, `internal/astro/chartdrawer.go` and the
composite service): add 360 while negative, then subtract 360 while ≥ 360. -/
def normalizeAngle (x : ℚ) : ℚ := normDown (normUp x)

lemma normUpGo_eq_self {n : Nat} {x : ℚ} (h : 0 ≤ x) : normUpGo n x = x := by
  cases n with
  | zero => rfl
  | succ n => simp [normUpGo, not_lt.mpr h]

lemma normUpGo_add (n : Nat) (x : ℚ) : ∃ k : ℤ, normUpGo n x = x + 360 * k := by
  induction n generalizing x with
  | zero => exact ⟨0, by simp [normUpGo]⟩
  | succ n ih =>
    by_cases h : x < 0
    · obtain ⟨k, hk⟩ := ih (x + 360)
      exact ⟨k + 1, by simp [normUpGo, h, hk]; ring⟩
    · exact ⟨0, by simp [normUpGo, h]⟩

lemma normUpGo_nonneg {n : Nat} {x : ℚ} (h : Int.toNat ⌈-x / 360⌉ ≤ n) :
    0 ≤ normUpGo n x := by
  induction n generalizing x with
  | zero =>
    simp only [Nat.le_zero, Int.toNat_eq_zero] at h
    have h2 : -x / 360 ≤ 0 := le_of_not_lt fun hc => by
      have := Int.ceil_pos.mpr hc
      omega
    have : -x ≤ 0 := by
      by_contra hc
      exact absurd (div_pos (by linarith) (by norm_num)) (not_lt.mpr h2)
    simpa [normUpGo] using by linarith
  | succ n ih =>
    by_cases hx : x < 0
    · simp only [normUpGo, if_pos hx]
      apply ih
      have hceil : ⌈-(x + 360) / 360⌉ = ⌈-x / 360⌉ - 1 := by
        have : -(x + 360) / 360 = -x / 360 - 1 := by ring
        rw [this, Int.ceil_sub_one]
      rw [hceil]
      omega
    · simpa [normUpGo, hx] using le_of_not_lt hx

lemma normUpGo_lt {n : Nat} {x : ℚ} (h : x < 360) : normUpGo n x < 360 := by
  induction n generalizing x with
  | zero => simpa [normUpGo]
  | succ n ih =>
    by_cases hx : x < 0
    · simp only [normUpGo, if_pos hx]
      exact ih (by linarith)
    · simpa [normUpGo, hx]

lemma normUp_nonneg (x : ℚ) : 0 ≤ normUp x := normUpGo_nonneg le_rfl

lemma normUp_lt {x : ℚ} (h : x < 360) : normUp x < 360 := normUpGo_lt h

lemma normUp_add (x : ℚ) : ∃ k : ℤ, normUp x = x + 360 * k := normUpGo_add _ x

lemma normUp_eq_self {x : ℚ} (h : 0 ≤ x) : normUp x = x := normUpGo_eq_self h

lemma normDownGo_eq_self {n : Nat} {x : ℚ} (h : x < 360) : normDownGo n x = x := by
  cases n with
  | zero => rfl
  | succ n => simp [normDownGo, not_le.mpr h]

lemma normDownGo_add (n : Nat) (x : ℚ) : ∃ k : ℤ, normDownGo n x = x + 360 * k := by
  induction n generalizing x with
  | zero => exact ⟨0, by simp [normDownGo]⟩
  | succ n ih =>
    by_cases h : 360 ≤ x
    · obtain ⟨k, hk⟩ := ih (x - 360)
      exact ⟨k - 1, by simp [normDownGo, h, hk]; ring⟩
    · exact ⟨0, by simp [normDownGo, h]⟩

lemma normDownGo_lt {n : Nat} {x : ℚ} (h : Int.toNat ⌊x / 360⌋ ≤ n) :
    normDownGo n x < 360 := by
  induction n generalizing x with
  | zero =>
    simp only [Nat.le_zero, Int.toNat_eq_zero] at h
    have h2 : x / 360 < 1 := by
      calc x / 360 < ⌊x / 360⌋ + 1 := Int.lt_floor_add_one _
        _ ≤ 1 := by exact_mod_cast by omega
    have : x < 360 := by
      by_contra hc
      have : (1 : ℚ) ≤ x / 360 := (le_div_iff₀ (by norm_num)).mpr (by linarith)
      linarith
    simpa [normDownGo]
  | succ n ih =>
    by_cases hx : 360 ≤ x
    · simp only [normDownGo, if_pos hx]
      apply ih
      have hfl : ⌊(x - 360) / 360⌋ = ⌊x / 360⌋ - 1 := by
        have : (x - 360) / 360 = x / 360 - 1 := by ring
        rw [this, Int.floor_sub_one]
      rw [hfl]
      omega
    · simpa [normDownGo, hx] using lt_of_not_le hx

lemma normDownGo_nonneg {n : Nat} {x : ℚ} (h : 0 ≤ x) : 0 ≤ normDownGo n x := by
  induction n generalizing x with
  | zero => simpa [normDownGo]
  | succ n ih =>
    by_cases hx : 360 ≤ x
    · simp only [normDownGo, if_pos hx]
      exact ih (by linarith)
    · simpa [normDownGo, hx]

lemma normalizeAngle_nonneg (x : ℚ) : 0 ≤ normalizeAngle x :=
  normDownGo_nonneg (normUp_nonneg x)

lemma normalizeAngle_lt (x : ℚ) : normalizeAngle x < 360 := normDownGo_lt le_rfl

lemma normalizeAngle_add (x : ℚ) : ∃ k : ℤ, normalizeAngle x = x + 360 * k := by
  obtain ⟨k1, h1⟩ := normUp_add x
  obtain ⟨k2, h2⟩ := normDownGo_add (Int.toNat ⌊normUp x / 360⌋) (normUp x)
  exact ⟨k1 + k2, by rw [normalizeAngle, normDown, h2, h1]; push_cast; ring⟩

lemma normalizeAngle_eq_self {x : ℚ} (h0 : 0 ≤ x) (h1 : x < 360) :
    normalizeAngle x = x := by
  rw [normalizeAngle, normUp_eq_self h0, normDown, normDownGo_eq_self h1]

/-- Two values of [0, 360) that differ by an integer multiple of 360 are
equal: the uniqueness of the normalized representative. -/
lemma norm_rep_unique {y z : ℚ} (hy0 : 0 ≤ y) (hy1 : y < 360) (hz0 : 0 ≤ z)
    (hz1 : z < 360) (k : ℤ) (h : y = z + 360 * k) : y = z := by
  have hk0 : (k : ℚ) < 1 := by nlinarith
  have hk1 : (-1 : ℚ) < k := by nlinarith
  have p2 : k < 1 := by exact_mod_cast hk0
  have q2 : -1 < k := by exact_mod_cast hk1
  have hk : k = 0 := by omega
  simp [h, hk]

/-- The closed form of the normalization used to evaluate it at concrete
arguments. -/
lemma normalizeAngle_eq_of {x y : ℚ} (k : ℤ) (h : y = x + 360 * k) (h0 : 0 ≤ y)
    (h1 : y < 360) : normalizeAngle x = y := by
  obtain ⟨m, hm⟩ := normalizeAngle_add x
  exact norm_rep_unique (normalizeAngle_nonneg x) (normalizeAngle_lt x) h0 h1
    (m - k) (by rw [hm, h]; push_cast; ring)

/-- Go `AngularDistance` (`internal/domain/house.go`): shortest angular
distance between two longitudes. -/
def AngularDistance (lon1 lon2 : ℚ) : ℚ :=
  let diff := |normalizeAngle lon1 - normalizeAngle lon2|
  if diff > 180 then 360 - diff else diff

/-- Go `calculateMidpoint` (identical copies in
`internal/astro/chartdrawer.go` and the composite service): midpoint along
the shorter arc between two longitudes. -/
def calculateMidpoint (lon1 lon2 : ℚ) : ℚ :=
  let l1 := normalizeAngle lon1
  let l2 := normalizeAngle lon2
  let diff0 := l2 - l1
  let diff : ℚ :=
    if diff0 > 180 then diff0 - 360
    else if diff0 < -180 then diff0 + 360
    else diff0
  normalizeAngle (l1 + diff / 2)

/-- The four chart angles set by Go `Chart.SetAngles`.  The Go struct also
stores formatted sign and degree strings derived from the same values; only
the numeric `Value` fields are modelled. -/
structure ChartAngles where
  ascendant : ℚ
  midheaven : ℚ
  ic : ℚ
  descendant : ℚ
  deriving DecidableEq

/-- Go `Chart.SetAngles`: stores the given ascendant and midheaven, then
re-derives IC and Descendant as the normalized opposite points. -/
def setAngles (ascendant midheaven : ℚ) : ChartAngles :=
  { ascendant := ascendant
    midheaven := midheaven
    ic := normalizeAngle (midheaven + 180)
    descendant := normalizeAngle (ascendant + 180) }

lemma AngularDistance_of_range {a b : ℚ} (ha0 : 0 ≤ a) (ha1 : a < 360)
    (hb0 : 0 ≤ b) (hb1 : b < 360) :
    AngularDistance a b = if |a - b| > 180 then 360 - |a - b| else |a - b| := by
  rw [AngularDistance, normalizeAngle_eq_self ha0 ha1,
    normalizeAngle_eq_self hb0 hb1]

lemma calculateMidpoint_nonneg (a b : ℚ) : 0 ≤ calculateMidpoint a b :=
  normalizeAngle_nonneg _

lemma calculateMidpoint_lt (a b : ℚ) : calculateMidpoint a b < 360 :=
  normalizeAngle_lt _

/-- The normalized antipode of a normalized angle is at angular distance
exactly 180. -/
lemma AngularDistance_antipode {x : ℚ} (h0 : 0 ≤ x) (h1 : x < 360) :
    AngularDistance x (normalizeAngle (x + 180)) = 180 := by
  have key : normalizeAngle (x + 180) = if x < 180 then x + 180 else x - 180 := by
    by_cases hx : x < 180
    · rw [if_pos hx]
      exact normalizeAngle_eq_of 0 (by ring) (by linarith) (by linarith)
    · rw [if_neg hx]
      push_neg at hx
      exact normalizeAngle_eq_of (-1) (by push_cast; ring) (by linarith)
        (by linarith)
  rw [key]
  by_cases hx : x < 180
  · rw [if_pos hx, AngularDistance_of_range h0 h1 (by linarith) (by linarith)]
    rw [show x - (x + 180) = -180 by ring]
    norm_num
  · push_neg at hx
    rw [if_neg (not_lt.mpr hx),
      AngularDistance_of_range h0 h1 (by linarith) (by linarith)]
    rw [show x - (x - 180) = 180 by ring]
    norm_num

/-- Go `AspectDefinition` (`internal/domain/aspect.go`).  The Go
`AspectType` is a string type; it is modelled as `String`. -/
structure AspectDefinition where
  type : String
  angle : ℚ
  baseOrb : ℚ
  symbol : String
  nature : String
  description : String
  deriving DecidableEq

/-- Go `GetAspectDefinitions`: the static catalog, in declaration order. -/
def aspectDefinitions : List AspectDefinition :=
  [{ type := "conjunction", angle := 0, baseOrb := 8, symbol := "☌",
     nature := "neutral", description := "Unity, blending, intensity" },
   { type := "sextile", angle := 60, baseOrb := 4, symbol := "⚹",
     nature := "harmonious", description := "Opportunity, cooperation, ease" },
   { type := "square", angle := 90, baseOrb := 6, symbol := "□",
     nature := "challenging",
     description := "Tension, conflict, growth through challenge" },
   { type := "trine", angle := 120, baseOrb := 7, symbol := "△",
     nature := "harmonious", description := "Harmony, natural talent, ease" },
   { type := "opposition", angle := 180, baseOrb := 8, symbol := "☍",
     nature := "challenging", description := "Opposition, balance, projection" },
   { type := "quincunx", angle := 150, baseOrb := 2, symbol := "⚻",
     nature := "neutral",
     description := "Adjustment, adaptation, minor tension" },
   { type := "semisextile", angle := 30, baseOrb := 1, symbol := "⚺",
     nature := "neutral", description := "Mild connection, subtle influence" },
   { type := "semisquare", angle := 45, baseOrb := 1, symbol := "∠",
     nature := "challenging", description := "Minor tension, irritation" },
   { type := "sesquisquare", angle := 135, baseOrb := 1, symbol := "⚼",
     nature := "challenging", description := "Minor tension, adjustment" }]

/-- The per-definition deviation computed inside Go `FindBestAspect`:
the absolute difference to the exact angle, wrapped when above 180. -/
def deviation (angle : ℚ) (d : AspectDefinition) : ℚ :=
  let orb := |angle - d.angle|
  if orb > 180 then 360 - orb else orb

/-- The loop of Go `FindBestAspect`, walking the catalog in declaration
order.  The accumulator is (bestAspect, bestExactAngle, smallestOrb),
started at ("", 0, 999) like the Go locals. -/
def bestLoop (angle : ℚ) : List AspectDefinition → String × ℚ × ℚ → String × ℚ × ℚ
  | [], acc => acc
  | d :: ds, acc =>
    let orb := deviation angle d
    bestLoop angle ds
      (if orb ≤ d.baseOrb ∧ orb < acc.2.2 then (d.type, d.angle, orb) else acc)

/-- Go `FindBestAspect`: returns (aspect type, exact angle, orb), with
("", 0, 0) when no definition is within orb. -/
def findBestAspect (angle : ℚ) : String × ℚ × ℚ :=
  let r := bestLoop angle aspectDefinitions ("", 0, 999)
  if r.1 = "" then ("", 0, 0) else r

/-- Go `GetAspectDefinition`: first catalog entry with the given type. -/
def getAspectDefinition (t : String) : Option AspectDefinition :=
  aspectDefinitions.find? (fun d => d.type = t)

/-- Go `IsAspectApplying`: project both longitudes one day forward and ask
whether the distance moves toward the exact angle. -/
def isAspectApplying (lon1 lon2 speed1 speed2 exactAngle : ℚ) : Bool :=
  let currentAngle := AngularDistance lon1 lon2
  let futureAngle := AngularDistance (lon1 + speed1) (lon2 + speed2)
  decide (|futureAngle - exactAngle| < |currentAngle - exactAngle|)

/-- Go `Aspect` (`internal/domain/aspect.go`), numeric and flag fields. -/
structure Aspect where
  planet1 : String
  planet2 : String
  type : String
  angle : ℚ
  orb : ℚ
  isApplying : Bool
  isExact : Bool
  strength : ℚ
  nature : String
  deriving DecidableEq

/-- Go `NewAspect`.  The Go code reads `def.Nature` without a nil check;
that dereference cannot fail because `FindBestAspect` only returns types
present in the catalog, and the impossible branch is mapped to `none`. -/
def newAspect (planet1 planet2 : String) (planet1Lon planet2Lon planet1Speed
    planet2Speed : ℚ) : Option Aspect :=
  let angle := AngularDistance planet1Lon planet2Lon
  let best := findBestAspect angle
  let aspectType := best.1
  let exactAngle := best.2.1
  let orb := best.2.2
  if aspectType = "" then none
  else
    match getAspectDefinition aspectType with
    | none => none
    | some d =>
      let strength : ℚ :=
        if 0 < d.baseOrb then
          let s := 1 - orb / d.baseOrb
          if s < 0 then 0 else s
        else 1
      some { planet1 := planet1
             planet2 := planet2
             type := aspectType
             angle := angle
             orb := orb
             isApplying := isAspectApplying planet1Lon planet2Lon planet1Speed
               planet2Speed exactAngle
             isExact := decide (orb < 1)
             strength := strength
             nature := d.nature }

/-- Truncated division toward zero, as used by Go `math.Mod`. -/
def truncQ (q : ℚ) : ℤ := if q < 0 then ⌈q⌉ else ⌊q⌋

/-- Go `math.Mod(x, y)`: the result has the sign of x. -/
def goMod (x y : ℚ) : ℚ := x - y * truncQ (x / y)

/-- One sweep of the forward adjustment loop body of Go `adjustedDegrees`
(`pkg/chart/chart.go`): index 0 takes the last element minus 360 as its
virtual predecessor, and updates are visible to later indices within the
same sweep.  Returns the updated positions and the `changed` flag. -/
def sweepFwd (minDegree step : ℚ) (l : List ℚ) : List ℚ × Bool :=
  (List.range l.length).foldl
    (fun (acc : List ℚ × Bool) i =>
      let a := acc.1
      let prevDeg := if i = 0 then a.getD (a.length - 1) 0 - 360
        else a.getD (i - 1) 0
      let cur := a.getD i 0
      let delta := cur - prevDeg
      let diff := min delta (360 - delta)
      if cur < prevDeg ∨ diff < minDegree then (a.set i (prevDeg + step), true)
      else acc)
    (l, false)

/-- One sweep of the backward adjustment loop body of Go `adjustedDegrees`
(run on the reversed array): index 0 takes the last element plus 360 as its
virtual predecessor and positions are pulled downward. -/
def sweepBwd (minDegree step : ℚ) (l : List ℚ) : List ℚ × Bool :=
  (List.range l.length).foldl
    (fun (acc : List ℚ × Bool) i =>
      let a := acc.1
      let prevDeg := if i = 0 then a.getD (a.length - 1) 0 + 360
        else a.getD (i - 1) 0
      let cur := a.getD i 0
      let delta := prevDeg - cur
      let diff := min delta (360 - delta)
      if prevDeg < cur ∨ diff < minDegree then (a.set i (prevDeg - step), true)
      else acc)
    (l, false)

/-- The Go loop `for changed { changed = false; ... }` around the forward
sweep.  The Go loop is unbounded and exits only after a sweep that makes no
change; a fuel argument bounds the modelled iteration count, and `none`
records that the Go loop is still running after `fuel` sweeps.  Whenever the
result is `some r`, the Go loop terminates with exactly `r`. -/
def loopFwd (minDegree step : ℚ) : Nat → List ℚ → Option (List ℚ)
  | 0, _ => none
  | fuel + 1, l =>
    let r := sweepFwd minDegree step l
    if r.2 then loopFwd minDegree step fuel r.1 else some r.1

/-- The Go loop around the backward sweep, with fuel like `loopFwd`. -/
def loopBwd (minDegree step : ℚ) : Nat → List ℚ → Option (List ℚ)
  | 0, _ => none
  | fuel + 1, l =>
    let r := sweepBwd minDegree step l
    if r.2 then loopBwd minDegree step fuel r.1 else some r.1

/-- The final averaging step of Go `adjustedDegrees`: fold each pass result
with `math.Mod`, then average on the circle. -/
def mergeAdjusted (fwdDegs bwdDegs : List ℚ) : List ℚ :=
  List.zipWith
    (fun f b =>
      let fm := goMod f 360
      let bm := goMod b 360
      if |fm - bm| < 180 then (fm + bm) / 2
      else goMod ((fm + bm + 360) / 2) 360)
    fwdDegs bwdDegs

/-- Go `Chart.adjustedDegrees`: forward relaxation on the input, backward
relaxation on the reversed input (un-reversed afterwards), then the circular
average of the two.  `none` means at least one of the two unbounded Go loops
is still running after `fuel` sweeps. -/
def adjustedDegrees (fuel : Nat) (degrees : List ℚ) (minDegree : ℚ) :
    Option (List ℚ) :=
  let step := minDegree + 1 / 10
  match loopFwd minDegree step fuel degrees,
      loopBwd minDegree step fuel degrees.reverse with
  | some fwdDegs, some bwdRev => some (mergeAdjusted fwdDegs bwdRev.reverse)
  | _, _ => none

/-- The per-house membership test inside the loop of Go
`DetermineHouseForPlanet` / `getHouseForLongitude`, for an already
normalized planet longitude: both cusps are normalized, and a span that
crosses the 0° seam (current > next) uses the wraparound disjunction. -/
def houseMatch (planetLon : ℚ) (houseCusps : List ℚ) (i : Nat) : Bool :=
  let currentCusp := normalizeAngle (houseCusps.getD i 0)
  let nextCusp := normalizeAngle (houseCusps.getD ((i + 1) % 12) 0)
  if currentCusp > nextCusp then
    decide (planetLon ≥ currentCusp ∨ planetLon < nextCusp)
  else
    decide (planetLon ≥ currentCusp ∧ planetLon < nextCusp)

/-- The `for i := 0; i < 12; i++ { if ... return i+1 }` scan: the first
index whose test succeeds. -/
def firstMatch (p : Nat → Bool) : List Nat → Option Nat
  | [] => none
  | i :: is => if p i then some i else firstMatch p is

/-- Go `findClosestHouse` (`internal/astro/houses.go`): nearest cusp by
circular distance, used when the boundary scan fails. -/
def findClosestHouse (planetLon : ℚ) (houseCusps : List ℚ) : Nat :=
  ((List.range 12).foldl
    (fun (acc : ℚ × Nat) i =>
      let cuspLon := normalizeAngle (houseCusps.getD i 0)
      let diff0 := |planetLon - cuspLon|
      let diff := if diff0 > 180 then 360 - diff0 else diff0
      if diff < acc.1 then (diff, i + 1) else acc)
    (360, 1)).2

/-- Go `HouseCalculator.DetermineHouseForPlanet`
(`internal/astro/houses.go`): wrong cusp count defaults to house 1; the
12-house scan returns the first matching house; an unmatched longitude
falls back to the closest cusp. -/
def DetermineHouseForPlanet (planetLongitude : ℚ) (houseCusps : List ℚ) :
    Nat :=
  if houseCusps.length ≠ 12 then 1
  else
    let planetLon := normalizeAngle planetLongitude
    match firstMatch (houseMatch planetLon houseCusps) (List.range 12) with
    | some i => i + 1
    | none => findClosestHouse planetLon houseCusps

/-- Go `getHouseForLongitude` (`pkg/chart/raw_chart_data.go`): same scan as
`DetermineHouseForPlanet` but the fallback is house 1. -/
def getHouseForLongitude (longitude : ℚ) (houseCusps : List ℚ) : Nat :=
  if houseCusps.length ≠ 12 then 1
  else
    let normLon := normalizeAngle longitude
    match firstMatch (houseMatch normLon houseCusps) (List.range 12) with
    | some i => i + 1
    | none => 1

/-- Go `domain.Planet` (`internal/domain/planet.go`), core numeric fields.
The Go struct additionally stores display strings (sign, formatted degree,
element, modality, planet type) derived from these values; they are not
modelled. -/
structure Planet where
  name : String
  longitude : ℚ
  latitude : ℚ
  speed : ℚ
  house : Int
  deriving DecidableEq

/-- Go `domain.NewPlanet`, restricted to the modelled fields. -/
def newPlanet (name : String) (longitude latitude speed : ℚ) (house : Int) :
    Planet :=
  { name := name, longitude := longitude, latitude := latitude,
    speed := speed, house := house }

/-- The Go map `planetMap2` built by `calculateMidpointPlanets`: keyed by
planet name, a later entry overwriting an earlier one. -/
def findPlanetByName (planets : List Planet) (n : String) : Option Planet :=
  planets.foldl (fun acc p => if p.name = n then some p else acc) none

/-- Go `calculateMidpointPlanets` (composite service): for each planet of
chart 1, emit a midpoint planet exactly when chart 2 has a planet of the
same name (latitude 0, speed 0, house 1 as in the source). -/
def calculateMidpointPlanets (planets1 planets2 : List Planet) :
    List Planet :=
  planets1.filterMap fun planet1 =>
    (findPlanetByName planets2 planet1.name).map fun planet2 =>
      newPlanet planet1.name
        (calculateMidpoint planet1.longitude planet2.longitude) 0 0 1

/-- Ceilings over ℚ rewritten to floors, so that the floor evaluation of
norm_num applies. -/
lemma ceilQ (a : ℚ) : ⌈a⌉ = -⌊-a⌋ := by
  rw [show a = -(-a) by ring, Int.ceil_neg, neg_neg]

/-- Claim C9: for all longitudes a and b in [0,360), AngularDistance is
commutative and its value lies in the closed interval [0, 180]. -/
theorem AngularDistance_comm_range (a b : ℚ) (ha0 : 0 ≤ a) (ha1 : a < 360)
    (hb0 : 0 ≤ b) (hb1 : b < 360) :
    AngularDistance a b = AngularDistance b a ∧
      0 ≤ AngularDistance a b ∧ AngularDistance a b ≤ 180 := by
  refine ⟨by simp [AngularDistance, abs_sub_comm], ?_⟩
  rw [AngularDistance_of_range ha0 ha1 hb0 hb1]
  have habs0 : 0 ≤ |a - b| := abs_nonneg _
  have habs1 : |a - b| < 360 := abs_lt.mpr ⟨by linarith, by linarith⟩
  split_ifs with h
  · constructor <;> linarith
  · constructor <;> linarith

/-- Witness for C9 at the concrete pair (10°, 350°). -/
theorem AngularDistance_comm_range_witness :
    AngularDistance 10 350 = AngularDistance 350 10 ∧
      0 ≤ AngularDistance 10 350 ∧ AngularDistance 10 350 ≤ 180 :=
  AngularDistance_comm_range 10 350 (by norm_num) (by norm_num) (by norm_num)
    (by norm_num)

/-- Claim C8: the arc midpoint of 350° and 10° is 0° (shorter arc, not the
arithmetic mean 180°), and for all longitudes the result lies in [0,360). -/
theorem calculateMidpoint_shorter_arc :
    calculateMidpoint 350 10 = 0 ∧
      ∀ a b : ℚ, 0 ≤ calculateMidpoint a b ∧ calculateMidpoint a b < 360 := by
  refine ⟨?_, fun a b => ⟨calculateMidpoint_nonneg a b, calculateMidpoint_lt a b⟩⟩
  have h350 : normalizeAngle 350 = 350 :=
    normalizeAngle_eq_self (by norm_num) (by norm_num)
  have h10 : normalizeAngle 10 = 10 :=
    normalizeAngle_eq_self (by norm_num) (by norm_num)
  have h360 : normalizeAngle 360 = 0 :=
    normalizeAngle_eq_of (-1) (by push_cast; ring) le_rfl (by norm_num)
  simp only [calculateMidpoint, h350, h10]
  norm_num [h360]

/-- Claim C4: when the composite calculator sets the chart angles from the
midpointed ascendant and midheaven, IC and descendant are re-derived as the
normalized antipodes MC+180° and ASC+180° (not midpointed independently),
so both angle pairs are exactly 180° apart. -/
theorem composite_setAngles_opposition (a1 a2 m1 m2 : ℚ) :
    (setAngles (calculateMidpoint a1 a2) (calculateMidpoint m1 m2)).ic =
        normalizeAngle (calculateMidpoint m1 m2 + 180) ∧
      (setAngles (calculateMidpoint a1 a2) (calculateMidpoint m1 m2)).descendant =
        normalizeAngle (calculateMidpoint a1 a2 + 180) ∧
      AngularDistance
          (setAngles (calculateMidpoint a1 a2) (calculateMidpoint m1 m2)).ascendant
          (setAngles (calculateMidpoint a1 a2) (calculateMidpoint m1 m2)).descendant
        = 180 ∧
      AngularDistance
          (setAngles (calculateMidpoint a1 a2) (calculateMidpoint m1 m2)).midheaven
          (setAngles (calculateMidpoint a1 a2) (calculateMidpoint m1 m2)).ic
        = 180 := by
  refine ⟨rfl, rfl, ?_, ?_⟩
  · exact AngularDistance_antipode (calculateMidpoint_nonneg a1 a2)
      (calculateMidpoint_lt a1 a2)
  · exact AngularDistance_antipode (calculateMidpoint_nonneg m1 m2)
      (calculateMidpoint_lt m1 m2)

/-- Claim C10: a cusp list whose length is not 12 makes both house
assignment functions return house 1 for every longitude, with no fallback
and no error path. -/
theorem house_wrong_cusp_count (lon : ℚ) (cusps : List ℚ)
    (h : cusps.length ≠ 12) :
    DetermineHouseForPlanet lon cusps = 1 ∧ getHouseForLongitude lon cusps = 1 :=
  ⟨by simp [DetermineHouseForPlanet, h], by simp [getHouseForLongitude, h]⟩

/-- Witness for C10 at longitude 42° with an empty cusp list. -/
theorem house_wrong_cusp_count_witness :
    ([] : List ℚ).length ≠ 12 ∧ DetermineHouseForPlanet 42 [] = 1 ∧
      getHouseForLongitude 42 [] = 1 :=
  ⟨by norm_num, (house_wrong_cusp_count 42 [] (by norm_num)).1,
    (house_wrong_cusp_count 42 [] (by norm_num)).2⟩

/-- Claim C1 (failing input): on the ascending cluster {100°,101°,102°}
with minimum separation 8° the anti-overlap function terminates (both
relaxation loops reach a fixed point within the given fuel, so this is
exactly the value the unbounded Go loops produce) and returns
{105.05°, 101°, 96.95°}: the circular gap between the first two adjusted
positions is 4.05° < 8°, and the original ascending order is reversed
rather than preserved.  This contradicts the claimed contract. -/
theorem adjustedDegrees_overlap_failure :
    adjustedDegrees 5 [100, 101, 102] 8 = some [2101/20, 101, 1939/20] ∧
      AngularDistance (2101/20) 101 = 81/20 ∧ ¬ (8 : ℚ) ≤ 81/20 ∧
      ¬ ((2101/20 : ℚ) < 101 ∧ (101 : ℚ) < 1939/20) := by
  refine ⟨?_, ?_, by norm_num, by norm_num⟩
  · norm_num [adjustedDegrees, loopFwd, loopBwd, sweepFwd, sweepBwd,
      mergeAdjusted, goMod, truncQ, ceilQ, List.range_succ, abs_lt, le_abs]
  · rw [AngularDistance_of_range (by norm_num) (by norm_num) (by norm_num)
      (by norm_num)]
    rw [show |(2101/20 : ℚ) - 101| = 81/20 by rw [abs_of_nonneg] <;> norm_num]
    norm_num

/-- Claim C2 counterexample: for the single position 0° with minimum
separation 8° the forward relaxation pass never reaches a fixed point: the
first sweep changes the array, and 8 successive sweeps (far more than
n = 1) all still report a change, so the pass does not converge within n
iterations (indeed the Go loop runs forever on this input). -/
theorem forwardPass_diverges_single :
    (sweepFwd 8 (8 + 1/10) [0]).2 = true ∧ loopFwd 8 (8 + 1/10) 8 [0] = none := by
  constructor <;> norm_num [loopFwd, sweepFwd, List.range_succ]

/-- Claim C2 amended: on the spec's example input {100°,101°,102°} with
minimum separation 8° (n = 3) both relaxation passes do reach a fixed point
within n full sweeps — two sweeps change the array and the third reports no
change, ending the Go loop. -/
theorem relaxation_converges_example :
    loopFwd 8 (8 + 1/10) 3 [100, 101, 102] = some [-1214/5, 101, 1091/10] ∧
      loopBwd 8 (8 + 1/10) 3 [102, 101, 100] = some [2224/5, 101, 929/10] := by
  constructor <;> norm_num [loopFwd, loopBwd, sweepFwd, sweepBwd, List.range_succ]

/-- Claim C3 counterexample: at longitudes 10° and 101° (distance 91°) the
produced aspect has isExact = false, not true: the orb is exactly 1.0° and
the code computes isExact as orb < 1.0. -/
theorem aspect91_not_exact :
    (newAspect "A" "B" 10 101 0 0).map Aspect.isExact = some false := by
  have h1 : AngularDistance 10 101 = 91 := by
    rw [AngularDistance_of_range (by norm_num) (by norm_num) (by norm_num)
      (by norm_num)]
    rw [show |(10 : ℚ) - 101| = 91 by rw [abs_of_nonpos] <;> norm_num]
    norm_num
  simp only [newAspect, h1]
  norm_num [findBestAspect, bestLoop, aspectDefinitions, deviation,
    getAspectDefinition, List.find?]
  simp

/-- Claim C3 amended: at longitudes 10° and 101° (distance 91°) aspect
detection yields a square with orb exactly 1°, strength 1 − 1/6 = 5/6, and
isExact = false (the rule orb < 1.0° is false at orb exactly 1.0). -/
theorem aspect91_square_eval :
    newAspect "A" "B" 10 101 0 0 = some
      { planet1 := "A", planet2 := "B", type := "square", angle := 91,
        orb := 1, isApplying := false, isExact := false, strength := 5/6,
        nature := "challenging" } ∧ (5/6 : ℚ) = 1 - 1/6 := by
  have h1 : AngularDistance 10 101 = 91 := by
    rw [AngularDistance_of_range (by norm_num) (by norm_num) (by norm_num)
      (by norm_num)]
    rw [show |(10 : ℚ) - 101| = 91 by rw [abs_of_nonpos] <;> norm_num]
    norm_num
  have h2 : AngularDistance (10 + 0) (101 + 0) = 91 := by norm_num [h1]
  refine ⟨?_, by norm_num⟩
  simp only [newAspect, h1, isAspectApplying, h2]
  norm_num [findBestAspect, bestLoop, aspectDefinitions, deviation,
    getAspectDefinition, List.find?]
  simp
  norm_num

lemma findPlanetByName_aux (n : String) (l : List Planet) :
    ∀ (acc : Option Planet) (p : Planet),
      l.foldl (fun acc p => if p.name = n then some p else acc) acc = some p →
      (p ∈ l ∧ p.name = n) ∨ acc = some p := by
  induction l with
  | nil => exact fun acc p h => Or.inr h
  | cons q l ih =>
    intro acc p h
    simp only [List.foldl_cons] at h
    rcases ih _ p h with h1 | h2
    · exact Or.inl ⟨List.mem_cons_of_mem _ h1.1, h1.2⟩
    · by_cases hq : q.name = n
      · rw [if_pos hq] at h2
        obtain rfl : q = p := by injection h2
        exact Or.inl ⟨List.mem_cons_self _ _, hq⟩
      · rw [if_neg hq] at h2
        exact Or.inr h2

lemma findPlanetByName_some {l : List Planet} {n : String} {p : Planet}
    (h : findPlanetByName l n = some p) : p ∈ l ∧ p.name = n := by
  rcases findPlanetByName_aux n l none p h with h1 | h2
  · exact h1
  · exact absurd h2 (by simp)

/-- Claim C7: the composite midpoint planets carry only names present in
both source charts; a name absent from chart 2 never appears in the
output. -/
theorem compositePlanets_require_both (planets1 planets2 : List Planet) :
    (∀ q ∈ calculateMidpointPlanets planets1 planets2,
        (∃ p ∈ planets1, p.name = q.name) ∧ ∃ p ∈ planets2, p.name = q.name) ∧
      ∀ n : String, (∀ p ∈ planets2, p.name ≠ n) →
        ∀ q ∈ calculateMidpointPlanets planets1 planets2, q.name ≠ n := by
  have h1 : ∀ q ∈ calculateMidpointPlanets planets1 planets2,
      (∃ p ∈ planets1, p.name = q.name) ∧ ∃ p ∈ planets2, p.name = q.name := by
    intro q hq
    rw [calculateMidpointPlanets, List.mem_filterMap] at hq
    obtain ⟨p1, hp1, hmap⟩ := hq
    obtain ⟨p2, hfind, hq2⟩ := Option.map_eq_some'.mp hmap
    obtain ⟨hp2mem, hp2name⟩ := findPlanetByName_some hfind
    have hqname : q.name = p1.name := by rw [← hq2]; rfl
    exact ⟨⟨p1, hp1, hqname.symm⟩, ⟨p2, hp2mem, by rw [hp2name, hqname]⟩⟩
  refine ⟨h1, fun n hn q hq hqn => ?_⟩
  obtain ⟨_, p2, hmem, hname⟩ := h1 q hq
  exact hn p2 hmem (by rw [hname, hqn])

/-- Witness for C7: chart 1 has the Sun, chart 2 only the Moon; the Sun
does not appear in the composite output. -/
theorem compositePlanets_require_both_witness :
    (∀ p ∈ [newPlanet "Moon" 50 0 0 2], p.name ≠ "Sun") ∧
      ∀ q ∈ calculateMidpointPlanets [newPlanet "Sun" 10 0 0 1]
        [newPlanet "Moon" 50 0 0 2], q.name ≠ "Sun" :=
  ⟨by simp [newPlanet],
    (compositePlanets_require_both [newPlanet "Sun" 10 0 0 1]
      [newPlanet "Moon" 50 0 0 2]).2 "Sun" (by simp [newPlanet])⟩

/-- Junk default used only for list indexing in statements. -/
def dfltAspectDef : AspectDefinition :=
  { type := "", angle := 0, baseOrb := 0, symbol := "", nature := "",
    description := "" }

lemma getD_mem_of_lt {α : Type} (l : List α) (j : Nat) (d : α)
    (h : j < l.length) : l.getD j d ∈ l := by
  rw [List.getD_eq_getElem l d h]
  exact List.getElem_mem h

/-- Invariant of the Go `FindBestAspect` loop: after walking `ds`, either
nothing qualified below the running smallest orb and the accumulator is
unchanged, or the result describes the earliest definition attaining the
smallest qualifying deviation. -/
lemma bestLoop_spec (angle : ℚ) (ds : List AspectDefinition) :
    ∀ acc : String × ℚ × ℚ,
    (bestLoop angle ds acc = acc ∧
      ∀ d ∈ ds, ¬(deviation angle d ≤ d.baseOrb ∧ deviation angle d < acc.2.2)) ∨
    ∃ i < ds.length,
      (deviation angle (ds.getD i dfltAspectDef) ≤
          (ds.getD i dfltAspectDef).baseOrb ∧
        deviation angle (ds.getD i dfltAspectDef) < acc.2.2) ∧
      bestLoop angle ds acc = ((ds.getD i dfltAspectDef).type,
        (ds.getD i dfltAspectDef).angle,
        deviation angle (ds.getD i dfltAspectDef)) ∧
      (∀ j < ds.length,
        deviation angle (ds.getD j dfltAspectDef) ≤
            (ds.getD j dfltAspectDef).baseOrb ∧
          deviation angle (ds.getD j dfltAspectDef) < acc.2.2 →
        deviation angle (ds.getD i dfltAspectDef) ≤
          deviation angle (ds.getD j dfltAspectDef)) ∧
      ∀ j < i,
        deviation angle (ds.getD j dfltAspectDef) ≤
            (ds.getD j dfltAspectDef).baseOrb ∧
          deviation angle (ds.getD j dfltAspectDef) < acc.2.2 →
        deviation angle (ds.getD i dfltAspectDef) <
          deviation angle (ds.getD j dfltAspectDef) := by
  induction ds with
  | nil => exact fun acc => Or.inl ⟨rfl, by simp⟩
  | cons d ds ih =>
    intro acc
    have hstep : ∀ acc2 : String × ℚ × ℚ, bestLoop angle (d :: ds) acc2 =
        bestLoop angle ds
          (if deviation angle d ≤ d.baseOrb ∧ deviation angle d < acc2.2.2 then
            (d.type, d.angle, deviation angle d) else acc2) := fun _ => rfl
    by_cases hd : deviation angle d ≤ d.baseOrb ∧ deviation angle d < acc.2.2
    · rcases ih (d.type, d.angle, deviation angle d) with ⟨heq, hall⟩ |
        ⟨i, hi, hQ, heq, hmin, hstrict⟩
      · refine Or.inr ⟨0, Nat.succ_pos _, ?_, ?_, ?_, ?_⟩
        · simpa using hd
        · rw [hstep, if_pos hd, heq]
          simp
        · intro j hj hQj
          match j with
          | 0 => simp
          | k + 1 =>
            simp only [List.getD_cons_succ] at hQj ⊢
            simp only [List.getD_cons_zero]
            have hmem : ds.getD k dfltAspectDef ∈ ds :=
              getD_mem_of_lt ds k _ (by simpa using hj)
            by_contra hlt
            exact hall _ hmem ⟨hQj.1, by push_neg at hlt; exact hlt⟩
        · intro j hj
          omega
      · refine Or.inr ⟨i + 1, by simpa using Nat.succ_lt_succ hi, ?_, ?_, ?_, ?_⟩
        · simp only [List.getD_cons_succ]
          exact ⟨hQ.1, lt_trans hQ.2 hd.2⟩
        · rw [hstep, if_pos hd]
          simpa using heq
        · intro j hj hQj
          match j with
          | 0 =>
            simp only [List.getD_cons_succ, List.getD_cons_zero] at hQj ⊢
            exact le_of_lt hQ.2
          | k + 1 =>
            simp only [List.getD_cons_succ] at hQj ⊢
            by_cases hlt : deviation angle (ds.getD k dfltAspectDef) <
                deviation angle d
            · exact hmin k (by simpa using hj) ⟨hQj.1, hlt⟩
            · exact le_of_lt (lt_of_lt_of_le hQ.2 (not_lt.mp hlt))
        · intro j hj hQj
          match j with
          | 0 =>
            simp only [List.getD_cons_succ, List.getD_cons_zero] at hQj ⊢
            exact hQ.2
          | k + 1 =>
            simp only [List.getD_cons_succ] at hQj ⊢
            by_cases hlt : deviation angle (ds.getD k dfltAspectDef) <
                deviation angle d
            · exact hstrict k (by omega) ⟨hQj.1, hlt⟩
            · exact lt_of_lt_of_le hQ.2 (not_lt.mp hlt)
    · rcases ih acc with ⟨heq, hall⟩ | ⟨i, hi, hQ, heq, hmin, hstrict⟩
      · refine Or.inl ⟨?_, ?_⟩
        · rw [hstep, if_neg hd, heq]
        · intro d2 hd2
          rcases List.mem_cons.mp hd2 with rfl | hmem
          · exact hd
          · exact hall _ hmem
      · refine Or.inr ⟨i + 1, by simpa using Nat.succ_lt_succ hi, ?_, ?_, ?_, ?_⟩
        · simpa only [List.getD_cons_succ] using hQ
        · rw [hstep, if_neg hd]
          simpa using heq
        · intro j hj hQj
          match j with
          | 0 =>
            simp only [List.getD_cons_zero] at hQj
            exact absurd hQj hd
          | k + 1 =>
            simp only [List.getD_cons_succ] at hQj ⊢
            exact hmin k (by simpa using hj) hQj
        · intro j hj hQj
          match j with
          | 0 =>
            simp only [List.getD_cons_zero] at hQj
            exact absurd hQj hd
          | k + 1 =>
            simp only [List.getD_cons_succ] at hQj ⊢
            exact hstrict k (by omega) hQj

/-- The property the claim states of the aspect matcher, in the claim's own
words: index i names a catalog definition whose (circularly wrapped)
deviation is within its base orb; the matcher returns that definition's
type, exact angle and deviation; the deviation is smallest among all
qualifying definitions; and every qualifying definition declared earlier
has strictly larger deviation, so equal deviations resolve to the earlier
declaration. -/
def FirstQualifyingMinimizer (angle : ℚ) (i : Nat) : Prop :=
  i < aspectDefinitions.length ∧
  deviation angle (aspectDefinitions.getD i dfltAspectDef) ≤
    (aspectDefinitions.getD i dfltAspectDef).baseOrb ∧
  findBestAspect angle = ((aspectDefinitions.getD i dfltAspectDef).type,
    (aspectDefinitions.getD i dfltAspectDef).angle,
    deviation angle (aspectDefinitions.getD i dfltAspectDef)) ∧
  (∀ j < aspectDefinitions.length,
    deviation angle (aspectDefinitions.getD j dfltAspectDef) ≤
      (aspectDefinitions.getD j dfltAspectDef).baseOrb →
    deviation angle (aspectDefinitions.getD i dfltAspectDef) ≤
      deviation angle (aspectDefinitions.getD j dfltAspectDef)) ∧
  ∀ j < i,
    deviation angle (aspectDefinitions.getD j dfltAspectDef) ≤
      (aspectDefinitions.getD j dfltAspectDef).baseOrb →
    deviation angle (aspectDefinitions.getD i dfltAspectDef) <
      deviation angle (aspectDefinitions.getD j dfltAspectDef)

lemma aspectDefinitions_baseOrb_le :
    ∀ d ∈ aspectDefinitions, d.baseOrb ≤ 8 := by decide

lemma aspectDefinitions_type_ne :
    ∀ d ∈ aspectDefinitions, ¬ d.type = "" := by decide

/-- Claim C6: `FindBestAspect` returns the empty sentinel exactly when no
catalog definition qualifies, and otherwise returns the earliest definition
attaining the smallest qualifying deviation (declaration order breaks
ties). -/
theorem findBestAspect_first_minimizer (angle : ℚ) :
    (findBestAspect angle = ("", 0, 0) →
      ∀ d ∈ aspectDefinitions, ¬ deviation angle d ≤ d.baseOrb) ∧
    (findBestAspect angle ≠ ("", 0, 0) →
      ∃ i, FirstQualifyingMinimizer angle i) := by
  rcases bestLoop_spec angle aspectDefinitions ("", 0, 999) with ⟨heq, hall⟩ |
    ⟨i, hi, hQ, heq, hmin, hstrict⟩
  · have hr : findBestAspect angle = ("", 0, 0) := by
      rw [findBestAspect, heq]
      simp
    refine ⟨fun _ d hd hle => ?_, fun hne => absurd hr hne⟩
    exact hall d hd ⟨hle, by
      have := aspectDefinitions_baseOrb_le d hd
      calc deviation angle d ≤ d.baseOrb := hle
        _ ≤ 8 := this
        _ < 999 := by norm_num⟩
  · have hmem : aspectDefinitions.getD i dfltAspectDef ∈ aspectDefinitions :=
      getD_mem_of_lt _ i _ hi
    have htype : ¬ (aspectDefinitions.getD i dfltAspectDef).type = "" :=
      aspectDefinitions_type_ne _ hmem
    have hr : findBestAspect angle = ((aspectDefinitions.getD i dfltAspectDef).type,
        (aspectDefinitions.getD i dfltAspectDef).angle,
        deviation angle (aspectDefinitions.getD i dfltAspectDef)) := by
      rw [findBestAspect, heq]
      exact if_neg htype
    constructor
    · intro h0
      rw [hr] at h0
      exact absurd (congrArg Prod.fst h0) htype
    · intro _
      refine ⟨i, hi, hQ.1, hr, fun j hj hle => ?_, fun j hj hle => ?_⟩
      · refine hmin j hj ⟨hle, ?_⟩
        have := aspectDefinitions_baseOrb_le
          (aspectDefinitions.getD j dfltAspectDef)
          (getD_mem_of_lt aspectDefinitions j dfltAspectDef hj)
        calc deviation angle (aspectDefinitions.getD j dfltAspectDef)
            ≤ (aspectDefinitions.getD j dfltAspectDef).baseOrb := hle
          _ ≤ 8 := this
          _ < 999 := by norm_num
      · refine hstrict j hj ⟨hle, ?_⟩
        have hjlen : j < aspectDefinitions.length := lt_trans hj hi
        have := aspectDefinitions_baseOrb_le
          (aspectDefinitions.getD j dfltAspectDef)
          (getD_mem_of_lt aspectDefinitions j dfltAspectDef hjlen)
        calc deviation angle (aspectDefinitions.getD j dfltAspectDef)
            ≤ (aspectDefinitions.getD j dfltAspectDef).baseOrb := hle
          _ ≤ 8 := this
          _ < 999 := by norm_num

/-- Witness for C6: at distance 17° no definition qualifies, and at
distance 91° the square is the first qualifying minimizer. -/
theorem findBestAspect_first_minimizer_witness :
    (∀ d ∈ aspectDefinitions, ¬ deviation 17 d ≤ d.baseOrb) ∧
      ∃ i, FirstQualifyingMinimizer 91 i :=
  ⟨(findBestAspect_first_minimizer 17).1 (by
      norm_num [findBestAspect, bestLoop, aspectDefinitions, deviation]),
    (findBestAspect_first_minimizer 91).2 (by
      norm_num [findBestAspect, bestLoop, aspectDefinitions, deviation]
      simp)⟩

/-- The claim's half-open boundary rule for house i: with cusp and next
cusp normalized, a span crossing the 0° seam (next < current) uses the
wraparound disjunction, otherwise the ordinary half-open interval. -/
def HouseRule (lon : ℚ) (cusps : List ℚ) (i : Nat) : Prop :=
  let p := normalizeAngle lon
  let c := normalizeAngle (cusps.getD i 0)
  let nx := normalizeAngle (cusps.getD ((i + 1) % 12) 0)
  if nx < c then p ≥ c ∨ p < nx else c ≤ p ∧ p < nx

lemma houseMatch_iff (lon : ℚ) (cusps : List ℚ) (i : Nat) :
    houseMatch (normalizeAngle lon) cusps i = true ↔ HouseRule lon cusps i := by
  simp only [houseMatch, HouseRule, gt_iff_lt, ge_iff_le]
  split_ifs with h <;> simp

lemma firstMatch_spec {p : Nat → Bool} :
    ∀ {l : List Nat} {i : Nat}, firstMatch p l = some i → i ∈ l ∧ p i = true := by
  intro l
  induction l with
  | nil => intro i h; cases h
  | cons j l ih =>
    intro i h
    by_cases hp : p j
    · rw [firstMatch, if_pos hp] at h
      obtain rfl : j = i := by injection h
      exact ⟨List.mem_cons_self _ _, hp⟩
    · rw [firstMatch, if_neg hp] at h
      obtain ⟨hmem, hpi⟩ := ih h
      exact ⟨List.mem_cons_of_mem _ hmem, hpi⟩

lemma firstMatch_none {p : Nat → Bool} :
    ∀ {l : List Nat}, firstMatch p l = none → ∀ i ∈ l, ¬ p i = true := by
  intro l
  induction l with
  | nil => intro _ i h; cases h
  | cons j l ih =>
    intro h i hmem
    by_cases hp : p j
    · rw [firstMatch, if_pos hp] at h
      cases h
    · rw [firstMatch, if_neg hp] at h
      rcases List.mem_cons.mp hmem with rfl | hmem2
      · exact hp
      · exact ih h i hmem2

/-- The concrete cusp set of the claim: house 1 spans 350°→20° across the
0° seam, the further cusps continue every 30°. -/
def cusps12 : List ℚ := [350, 20, 50, 80, 110, 140, 170, 200, 230, 260, 290, 320]

lemma range12_eq :
    List.range 12 = [0, 1, 2, 3, 4, 5, 6, 7, 8, 9, 10, 11] := rfl

/-- Claim C5: with cusps [350°, 20°, ...] a planet at 5° is assigned house
1 and a planet at 340° house 12, in both house assignment functions; and in
general, when the boundary rule singles out exactly one house, a body is
assigned house i+1 exactly when the rule holds at index i. -/
theorem house_boundary_rule :
    (DetermineHouseForPlanet 5 cusps12 = 1 ∧ getHouseForLongitude 5 cusps12 = 1 ∧
      DetermineHouseForPlanet 340 cusps12 = 12 ∧
      getHouseForLongitude 340 cusps12 = 12) ∧
    ∀ (lon : ℚ) (cusps : List ℚ), cusps.length = 12 →
      (∃ i0, i0 < 12 ∧ HouseRule lon cusps i0) →
      (∀ j k, j < 12 → k < 12 → HouseRule lon cusps j → HouseRule lon cusps k →
        j = k) →
      ∀ i, i < 12 →
        ((DetermineHouseForPlanet lon cusps = i + 1 ↔ HouseRule lon cusps i) ∧
          (getHouseForLongitude lon cusps = i + 1 ↔ HouseRule lon cusps i)) := by
  constructor
  · refine ⟨?_, ?_, ?_, ?_⟩ <;>
      norm_num [DetermineHouseForPlanet, getHouseForLongitude, cusps12,
        range12_eq, firstMatch, houseMatch, normalizeAngle, normUp, normDown,
        normUpGo, normDownGo, ceilQ, List.getD]
  · intro lon cusps hlen hex huniq i hi
    obtain ⟨i0, hi0, hrule0⟩ := hex
    have hnone : firstMatch (houseMatch (normalizeAngle lon) cusps)
        (List.range 12) ≠ none := fun hn =>
      firstMatch_none hn i0 (List.mem_range.mpr hi0)
        ((houseMatch_iff lon cusps i0).mpr hrule0)
    obtain ⟨j, hj⟩ : ∃ j, firstMatch (houseMatch (normalizeAngle lon) cusps)
        (List.range 12) = some j := by
      cases hcase : firstMatch (houseMatch (normalizeAngle lon) cusps)
        (List.range 12) with
      | none => exact absurd hcase hnone
      | some j => exact ⟨j, rfl⟩
    obtain ⟨hjmem, hjp⟩ := firstMatch_spec hj
    have hj12 : j < 12 := List.mem_range.mp hjmem
    have hjrule : HouseRule lon cusps j := (houseMatch_iff lon cusps j).mp hjp
    have hdet : DetermineHouseForPlanet lon cusps = j + 1 := by
      simp [DetermineHouseForPlanet, hlen, hj]
    have hget : getHouseForLongitude lon cusps = j + 1 := by
      simp [getHouseForLongitude, hlen, hj]
    have key : ∀ r : Nat, r = j + 1 → (r = i + 1 ↔ HouseRule lon cusps i) := by
      rintro r rfl
      constructor
      · intro h
        have : j = i := by omega
        exact this ▸ hjrule
      · intro hrule_i
        have : i = j := huniq i j hi hj12 hrule_i hjrule
        rw [this]
    rw [hdet, hget]
    exact ⟨key (j + 1) rfl, key (j + 1) rfl⟩

lemma houseRule5 : ∀ j, j < 12 → (HouseRule 5 cusps12 j ↔ j = 0) := by
  intro j hj
  interval_cases j <;>
    norm_num [HouseRule, cusps12, normalizeAngle, normUp, normDown, normUpGo,
      normDownGo, ceilQ, List.getD]

/-- Witness for C5: at longitude 5° with the wraparound cusp set, index 0
is the unique index satisfying the boundary rule, and the general rule of
the theorem instantiates there. -/
theorem house_boundary_rule_witness :
    cusps12.length = 12 ∧ HouseRule 5 cusps12 0 ∧
      (DetermineHouseForPlanet 5 cusps12 = 0 + 1 ↔ HouseRule 5 cusps12 0) ∧
      (getHouseForLongitude 5 cusps12 = 0 + 1 ↔ HouseRule 5 cusps12 0) := by
  have hrule0 : HouseRule 5 cusps12 0 := (houseRule5 0 (by norm_num)).mpr rfl
  have huniq : ∀ j k, j < 12 → k < 12 → HouseRule 5 cusps12 j →
      HouseRule 5 cusps12 k → j = k := by
    intro j k hj hk hrj hrk
    rw [(houseRule5 j hj).mp hrj, (houseRule5 k hk).mp hrk]
  have := (house_boundary_rule).2 5 cusps12 rfl ⟨0, by norm_num, hrule0⟩ huniq 0
    (by norm_num)
  exact ⟨rfl, hrule0, this.1, this.2⟩

end Astroeph
